import Mathlib

/-!
Verification development for the WhatTheFee mempool recorder.

The definitions below are a shallow embedding of the two Rust source files:

* `src/record.rs` — the recorder loop (`Record::record`), the scheduler gate at the
  top of the loop, and the delta engine (`Record::create_delta_from_pools`,
  `Record::delta_of_keys`).
* `src/main.rs` — the earlier prototype of the same loop, in particular the REST
  loaders `load_height` and `load_mempool`, whose error handling we model.

Modelling conventions: `HashMap<Txid, GetMempoolEntryResult>` becomes an association
list in hash-iteration order (a well-formed map has pairwise distinct keys);
fallible operations (`.unwrap()` panics, `?` early returns) become `Option`/`Except`;
the `f64` columns hold exact integer values in the source (a `u64` weight cast to
float, possibly negated, and a whole-satoshi fee), so they are modelled as integers.
-/

namespace WhatTheFee

/-- Transaction id (`bitcoin::Txid` in `record.rs`, `String` in `main.rs`);
equality is by value, rendered here in its string form. -/
abbrev Txid := String

/-- The fields of `bitcoincore_rest::responses::GetMempoolEntryResult` that the
recorder reads: `weight` (an `Option<u64>` in the REST type), `fees.base`
(modelled in satoshi, the unit `to_float_in(Denomination::Satoshi)` produces),
and `time` (unix first-seen timestamp). -/
structure GetMempoolEntryResult where
  weight : Option Nat
  fee_base_sat : Nat
  time : Nat
deriving DecidableEq, Repr

/-- `type Mempool = HashMap<Txid, GetMempoolEntryResult>`, modelled as an
association list in hash-iteration order. -/
abbrev Mempool := List (Txid × GetMempoolEntryResult)

/-- The key set of a mempool snapshot (`map.keys()`), in iteration order. -/
def keys (m : Mempool) : List Txid := m.map Prod.fst

/-- `HashMap::get`: the entry stored under a key, if present. -/
def lookup (m : Mempool) (k : Txid) : Option GetMempoolEntryResult :=
  match m with
  | [] => none
  | (k2, e) :: rest => if k2 = k then some e else lookup rest k

/-- `HashMap::contains_key`. -/
def containsKey (m : Mempool) (k : Txid) : Bool := (lookup m k).isSome

/-- First loop of `Record::delta_of_keys`, the keys it inserts into the
`intersection` hash set: the keys of `map1` that `map2` also contains. -/
def intersectionKeys (map1 map2 : Mempool) : List Txid :=
  (keys map1).filter (fun k => containsKey map2 k)

/-- `Record::delta_of_keys` (`src/record.rs:120`): one pass over `map1.keys()`
partitioning into `intersection` and `keys_removed`, then one pass over
`map2.keys()` collecting the keys absent from `intersection` as `keys_added`.
Returns `(keys_removed, keys_added)`. -/
def delta_of_keys (map1 map2 : Mempool) : List Txid × List Txid :=
  ((keys map1).filter (fun k => !(containsKey map2 k)),
   (keys map2).filter (fun k => !((intersectionKeys map1 map2).contains k)))

/-- One row of the delta table, the four columns pushed per key in
`Record::create_delta_from_pools`: `txid`, `weight` (signed; negated for
removed keys), `fee_sat`, `first_seen_at`. -/
structure DeltaRow where
  txid : Txid
  weight : Int
  fee_sat : Nat
  first_seen_at : Nat
deriving DecidableEq, Repr

/-- Body of the removed-keys loop (`src/record.rs:91`): look the key up in the
previous pool (`prev_mempool.get(txid).unwrap()`), unwrap its weight
(`entry.weight.unwrap()`), and emit a row with the negated weight and the fee
and first-seen time of the PREVIOUS entry. `none` models the `.unwrap()` panic. -/
def removedRow (prev_mempool : Mempool) (txid : Txid) : Option DeltaRow :=
  match lookup prev_mempool txid with
  | none => none
  | some entry =>
    match entry.weight with
    | none => none
    | some w =>
      some { txid := txid, weight := -(w : Int),
             fee_sat := entry.fee_base_sat, first_seen_at := entry.time }

/-- Body of the added-keys loop (`src/record.rs:101`): look the key up in the
current pool, unwrap its weight, and emit a row with the positive weight and the
fee and first-seen time of the CURRENT entry. `none` models the `.unwrap()` panic. -/
def addedRow (this_mempool : Mempool) (txid : Txid) : Option DeltaRow :=
  match lookup this_mempool txid with
  | none => none
  | some entry =>
    match entry.weight with
    | none => none
    | some w =>
      some { txid := txid, weight := (w : Int),
             fee_sat := entry.fee_base_sat, first_seen_at := entry.time }

/-- Runs a per-key row builder over a list of keys, in order, short-circuiting
on the first panic (the loops in `create_delta_from_pools` push one row per key
and a panic aborts the whole call, never skipping an entry). -/
def rowsFrom (row : Txid → Option DeltaRow) : List Txid → Option (List DeltaRow)
  | [] => some []
  | k :: ks =>
    match row k, rowsFrom row ks with
    | some r, some rs => some (r :: rs)
    | _, _ => none

/-- `Record::create_delta_from_pools` (`src/record.rs:81`): compute
`(keys_removed, keys_added)`, emit one row per removed key from the previous
pool, then one row per added key from the current pool; the resulting table is
the removed rows followed by the added rows. `none` models a panic of either loop. -/
def create_delta_from_pools (prev_mempool this_mempool : Mempool) : Option (List DeltaRow) :=
  match rowsFrom (removedRow prev_mempool) (delta_of_keys prev_mempool this_mempool).1,
        rowsFrom (addedRow this_mempool) (delta_of_keys prev_mempool this_mempool).2 with
  | some rs, some ra => some (rs ++ ra)
  | _, _ => none

/-- A well-formed mempool snapshot: keys are pairwise distinct (the `HashMap`
invariant) and every entry carries a weight (the spec's `MempoolEntry` has a
`weight` attribute; the REST type makes it optional). -/
def WellFormedPool (m : Mempool) : Prop :=
  (keys m).Nodup ∧ ∀ p ∈ m, (p.2.weight).isSome = true

instance (m : Mempool) : Decidable (WellFormedPool m) := by
  unfold WellFormedPool; infer_instance

/-! ## Scheduler (the gate at the top of the loop in `Record::record`) -/

/-- `chrono` `now.second()`: the seconds-within-minute component of a unix
timestamp (chrono UTC time has no leap seconds, so this is the timestamp
modulo 60; Lean's `Int` `%` is the nonnegative euclidean remainder, matching
the 0..59 range `second()` returns). -/
def secondOfMinute (ts : Int) : Int := ts % 60

/-- The `continue` condition of the gate at the top of the loop
(`src/record.rs:29`): `now.second() % 15 != 0 || prev_timestamp == now.timestamp()`. -/
def tickGateSkips (now_ts prev_timestamp : Int) : Bool :=
  secondOfMinute now_ts % 15 != 0 || prev_timestamp == now_ts

/-- The scheduler predicate of the spec: the tick body runs exactly when the
gate does not `continue`. -/
def should_tick (now_ts prev_timestamp : Int) : Bool :=
  !(tickGateSkips now_ts prev_timestamp)

/-! ## Recorder loop (`Record::record`, `src/record.rs:17`) -/

/-- The mutable state `Record::record` carries across loop iterations:
`prev_height`, `prev_mempool`, `prev_timestamp`. -/
structure LoopState where
  prev_height : Nat
  prev_mempool : Mempool
  prev_timestamp : Int
deriving Repr

/-- The initial state (`src/record.rs:20`): `prev_height = 0`,
`prev_mempool = HashMap::new()`, `prev_timestamp = 0`. -/
def initialLoopState : LoopState :=
  { prev_height := 0, prev_mempool := [], prev_timestamp := 0 }

/-- What one executed tick body produces: the suffix used in the output
filename `{height}_{timestamp}_{suffix}.parquet`, the delta table written,
and the rotated state. -/
structure TickOutput where
  filename_suffix : String
  delta : Option (List DeltaRow)
  next : LoopState
deriving Repr

/-- The tick body of `Record::record` (`src/record.rs:34`), after the gate has
passed, as a function of the fetched height and mempool: if the fetched height
differs from `prev_height` the previous mempool is replaced by the empty map
before the delta is computed and the filename suffix is `full`, otherwise the
previous mempool is kept and the suffix is `delta`; afterwards the state
rotates to the fetched height and mempool and the current timestamp. -/
def tick_body (st : LoopState) (now_ts : Int) (this_height : Nat)
    (this_mempool : Mempool) : TickOutput :=
  let is_new_height : Bool := st.prev_height != this_height
  let base_mempool : Mempool := if is_new_height then [] else st.prev_mempool
  { filename_suffix := if is_new_height then "full" else "delta"
    delta := create_delta_from_pools base_mempool this_mempool
    next := { prev_height := this_height, prev_mempool := this_mempool,
              prev_timestamp := now_ts } }

/-! ## REST loaders of the `main.rs` prototype -/

/-- The `blocks` field of `/rest/chaininfo.json` (`ChainInfo` in `main.rs`). -/
structure ChainInfo where
  blocks : Nat
deriving DecidableEq, Repr

/-- How a tick abort surfaces in the `main.rs` loaders: a failed `send()`
(`reqwest` connection error propagated by `?`), a failed `.json()` body
decode (propagated by `?`), or the `load_mempool` process abort on a
non-success status. -/
inductive TransportFailure
  | connectFailed
  | decodeFailed
  | badStatusAbort
deriving DecidableEq, Repr

/-- An HTTP exchange as the loaders see it: whether `status().is_success()`
holds and what the body deserializes to (`none` for a malformed body). -/
structure HttpOutcome (α : Type) where
  status_ok : Bool
  parsed_body : Option α
deriving Repr

/-- `load_height` (`src/main.rs:117`): `none` input models an unreachable node
(`send().await?` propagates). On a NON-success status the source only prints
to stderr (`eprintln!`) and falls through; it then deserializes the body with
`response.json().await?`, returning the parsed `blocks` on success and
propagating a decode error otherwise. -/
def load_height (net : Option (HttpOutcome ChainInfo)) : Except TransportFailure Nat :=
  match net with
  | none => .error .connectFailed
  | some resp =>
    match resp.parsed_body with
    | some chaininfo => .ok chaininfo.blocks
    | none => .error .decodeFailed

/-- `load_mempool` (`src/main.rs:129`): `none` input models an unreachable
node. On a non-success status the source aborts the process; a malformed body
propagates a decode error; otherwise the parsed mempool is returned. -/
def load_mempool (net : Option (HttpOutcome Mempool)) : Except TransportFailure Mempool :=
  match net with
  | none => .error .connectFailed
  | some resp =>
    if resp.status_ok = false then .error .badStatusAbort
    else
      match resp.parsed_body with
      | some pool => .ok pool
      | none => .error .decodeFailed

/-! ## Concrete example snapshots (the end-to-end scenario of the spec) -/

/-- Previous snapshot of the spec's end-to-end scenario:
`{A: w=100, fee=500, t=1000}`. -/
def examplePrevPool : Mempool :=
  [("A", { weight := some 100, fee_base_sat := 500, time := 1000 })]

/-- Current snapshot of the spec's end-to-end scenario: `A` unchanged plus
`{B: w=50, fee=200, t=2000}`. -/
def exampleCurrPool : Mempool :=
  [("A", { weight := some 100, fee_base_sat := 500, time := 1000 }),
   ("B", { weight := some 50, fee_base_sat := 200, time := 2000 })]

/-! ## Lemmas about lookups and keys -/

theorem lookup_isSome_iff (m : Mempool) (k : Txid) :
    (lookup m k).isSome = true ↔ k ∈ keys m := by
  induction m with
  | nil => simp [lookup, keys]
  | cons p rest ih =>
    obtain ⟨k2, e⟩ := p
    simp only [lookup, keys, List.map_cons, List.mem_cons]
    by_cases h : k2 = k
    · simp [h]
    · rw [if_neg h, ih]
      constructor
      · exact fun hk => Or.inr hk
      · rintro (rfl | hk)
        · exact absurd rfl h
        · exact hk

theorem containsKey_iff (m : Mempool) (k : Txid) :
    containsKey m k = true ↔ k ∈ keys m := lookup_isSome_iff m k

theorem containsKey_eq_false_iff (m : Mempool) (k : Txid) :
    containsKey m k = false ↔ k ∉ keys m := by
  rw [← containsKey_iff]
  cases containsKey m k <;> simp

theorem lookup_mem {m : Mempool} {k : Txid} {e : GetMempoolEntryResult}
    (h : lookup m k = some e) : (k, e) ∈ m := by
  induction m with
  | nil => simp [lookup] at h
  | cons p rest ih =>
    obtain ⟨k2, e2⟩ := p
    simp only [lookup] at h
    by_cases hk : k2 = k
    · rw [if_pos hk] at h
      injection h with he
      subst hk; subst he
      exact List.mem_cons_self _ _
    · rw [if_neg hk] at h
      exact List.mem_cons_of_mem _ (ih h)

theorem lookup_eq_of_mem {m : Mempool} (hnd : (keys m).Nodup)
    {p : Txid × GetMempoolEntryResult} (hp : p ∈ m) : lookup m p.1 = some p.2 := by
  induction m with
  | nil => simp at hp
  | cons q rest ih =>
    obtain ⟨k2, e2⟩ := q
    simp only [keys, List.map_cons, List.nodup_cons] at hnd
    rcases List.mem_cons.mp hp with h | h
    · subst h; simp [lookup]
    · have hk : k2 ≠ p.1 := by
        intro hkk
        exact hnd.1 (by rw [hkk]; exact List.mem_map.mpr ⟨p, h, rfl⟩)
      simp only [lookup, if_neg hk]
      exact ih hnd.2 h

theorem weight_isSome_of_lookup {m : Mempool} (hwf : WellFormedPool m)
    {k : Txid} {e : GetMempoolEntryResult} (h : lookup m k = some e) :
    (e.weight).isSome = true :=
  hwf.2 (k, e) (lookup_mem h)

/-! ## Lemmas about the row builders -/

theorem removedRow_eq_some {prev : Mempool} (hwf : WellFormedPool prev) {k : Txid}
    (hk : k ∈ keys prev) :
    ∃ e w, lookup prev k = some e ∧ e.weight = some w ∧
      removedRow prev k = some { txid := k, weight := -(w : Int),
                                 fee_sat := e.fee_base_sat, first_seen_at := e.time } := by
  obtain ⟨e, he⟩ := Option.isSome_iff_exists.mp ((lookup_isSome_iff prev k).mpr hk)
  obtain ⟨w, hw⟩ := Option.isSome_iff_exists.mp (weight_isSome_of_lookup hwf he)
  exact ⟨e, w, he, hw, by simp [removedRow, he, hw]⟩

theorem addedRow_eq_some {curr : Mempool} (hwf : WellFormedPool curr) {k : Txid}
    (hk : k ∈ keys curr) :
    ∃ e w, lookup curr k = some e ∧ e.weight = some w ∧
      addedRow curr k = some { txid := k, weight := (w : Int),
                               fee_sat := e.fee_base_sat, first_seen_at := e.time } := by
  obtain ⟨e, he⟩ := Option.isSome_iff_exists.mp ((lookup_isSome_iff curr k).mpr hk)
  obtain ⟨w, hw⟩ := Option.isSome_iff_exists.mp (weight_isSome_of_lookup hwf he)
  exact ⟨e, w, he, hw, by simp [addedRow, he, hw]⟩

theorem removedRow_txid {prev : Mempool} {k : Txid} {r : DeltaRow}
    (h : removedRow prev k = some r) : r.txid = k := by
  unfold removedRow at h
  split at h
  · cases h
  · split at h
    · cases h
    · injection h with he
      rw [← he]

theorem addedRow_txid {curr : Mempool} {k : Txid} {r : DeltaRow}
    (h : addedRow curr k = some r) : r.txid = k := by
  unfold addedRow at h
  split at h
  · cases h
  · split at h
    · cases h
    · injection h with he
      rw [← he]

theorem rowsFrom_isSome {row : Txid → Option DeltaRow} {ks : List Txid}
    (h : ∀ k ∈ ks, (row k).isSome = true) : (rowsFrom row ks).isSome = true := by
  induction ks with
  | nil => rfl
  | cons k ks ih =>
    obtain ⟨r, hr⟩ := Option.isSome_iff_exists.mp (h k (List.mem_cons_self k ks))
    obtain ⟨rs, hrs⟩ :=
      Option.isSome_iff_exists.mp (ih (fun k2 hk2 => h k2 (List.mem_cons_of_mem _ hk2)))
    simp [rowsFrom, hr, hrs]

theorem rowsFrom_forall₂ {row : Txid → Option DeltaRow} {ks : List Txid}
    {rs : List DeltaRow} (h : rowsFrom row ks = some rs) :
    List.Forall₂ (fun k r => row k = some r) ks rs := by
  induction ks generalizing rs with
  | nil =>
    simp only [rowsFrom, Option.some.injEq] at h
    subst h
    exact List.Forall₂.nil
  | cons k ks ih =>
    cases hr : row k with
    | none => simp [rowsFrom, hr] at h
    | some r =>
      cases hrs : rowsFrom row ks with
      | none => simp [rowsFrom, hr, hrs] at h
      | some rs2 =>
        simp only [rowsFrom, hr, hrs, Option.some.injEq] at h
        subst h
        exact List.Forall₂.cons hr (ih hrs)

/-! ## Lemmas about `delta_of_keys` -/

theorem mem_intersectionKeys_iff (prev curr : Mempool) (k : Txid) :
    k ∈ intersectionKeys prev curr ↔ k ∈ keys prev ∧ k ∈ keys curr := by
  simp [intersectionKeys, List.mem_filter, containsKey_iff]

theorem mem_keys_removed_iff (prev curr : Mempool) (k : Txid) :
    k ∈ (delta_of_keys prev curr).1 ↔ k ∈ keys prev ∧ k ∉ keys curr := by
  simp only [delta_of_keys, List.mem_filter, Bool.not_eq_true']
  rw [containsKey_eq_false_iff]

theorem mem_keys_added_iff (prev curr : Mempool) (k : Txid) :
    k ∈ (delta_of_keys prev curr).2 ↔ k ∈ keys curr ∧ k ∉ keys prev := by
  simp only [delta_of_keys, List.mem_filter, List.elem_eq_mem, Bool.not_eq_true',
    decide_eq_false_iff_not]
  constructor
  · rintro ⟨hc, hni⟩
    exact ⟨hc, fun hp => hni ((mem_intersectionKeys_iff prev curr k).mpr ⟨hp, hc⟩)⟩
  · rintro ⟨hc, hnp⟩
    exact ⟨hc, fun hi => hnp ((mem_intersectionKeys_iff prev curr k).mp hi).1⟩

theorem keys_removed_nodup {prev curr : Mempool} (hnd : (keys prev).Nodup) :
    (delta_of_keys prev curr).1.Nodup :=
  List.Nodup.filter _ hnd

theorem keys_added_nodup {prev curr : Mempool} (hnd : (keys curr).Nodup) :
    (delta_of_keys prev curr).2.Nodup :=
  List.Nodup.filter _ hnd

/-- The length of the removed-keys list is the cardinality of the key-set
difference `keys(prev) \ keys(curr)`, provided `prev` has no duplicate keys. -/
theorem keys_removed_length {prev curr : Mempool} (hnd : (keys prev).Nodup) :
    (delta_of_keys prev curr).1.length =
      ((keys prev).toFinset \ (keys curr).toFinset).card := by
  have hfil : (delta_of_keys prev curr).1.Nodup := keys_removed_nodup hnd
  rw [← List.toFinset_card_of_nodup hfil]
  congr 1
  rw [Finset.sdiff_eq_filter]
  show ((keys prev).filter _).toFinset = _
  rw [List.toFinset_filter]
  apply Finset.filter_congr
  intro x hx
  simp [containsKey_eq_false_iff]

/-- The length of the added-keys list is the cardinality of the key-set
difference `keys(curr) \ keys(prev)`, provided `curr` has no duplicate keys. -/
theorem keys_added_length {prev curr : Mempool} (hnd : (keys curr).Nodup) :
    (delta_of_keys prev curr).2.length =
      ((keys curr).toFinset \ (keys prev).toFinset).card := by
  have hfil : (delta_of_keys prev curr).2.Nodup := keys_added_nodup hnd
  rw [← List.toFinset_card_of_nodup hfil]
  congr 1
  rw [Finset.sdiff_eq_filter]
  show ((keys curr).filter _).toFinset = _
  rw [List.toFinset_filter]
  apply Finset.filter_congr
  intro x hx
  rw [List.mem_toFinset] at hx
  constructor
  · intro hb
    simp only [List.elem_eq_mem, Bool.not_eq_true', decide_eq_false_iff_not] at hb
    simp only [List.mem_toFinset]
    exact fun hp => hb ((mem_intersectionKeys_iff prev curr x).mpr ⟨hp, hx⟩)
  · intro hb
    simp only [List.mem_toFinset] at hb
    simp only [List.elem_eq_mem, Bool.not_eq_true', decide_eq_false_iff_not]
    exact fun hi => hb ((mem_intersectionKeys_iff prev curr x).mp hi).1

/-! ## Structure of `create_delta_from_pools` -/

/-- For well-formed snapshots the delta engine succeeds, and its table is the
removed rows followed by the added rows, in bijective order-preserving
correspondence with the removed and added key lists. -/
theorem create_delta_spec {prev curr : Mempool}
    (h1 : WellFormedPool prev) (h2 : WellFormedPool curr) :
    ∃ rs ra, create_delta_from_pools prev curr = some (rs ++ ra) ∧
      List.Forall₂ (fun k r => removedRow prev k = some r) (delta_of_keys prev curr).1 rs ∧
      List.Forall₂ (fun k r => addedRow curr k = some r) (delta_of_keys prev curr).2 ra := by
  have hrem : ∀ k ∈ (delta_of_keys prev curr).1, (removedRow prev k).isSome = true := by
    intro k hk
    obtain ⟨e, w, _, _, hrow⟩ :=
      removedRow_eq_some h1 ((mem_keys_removed_iff prev curr k).mp hk).1
    simp [hrow]
  have hadd : ∀ k ∈ (delta_of_keys prev curr).2, (addedRow curr k).isSome = true := by
    intro k hk
    obtain ⟨e, w, _, _, hrow⟩ :=
      addedRow_eq_some h2 ((mem_keys_added_iff prev curr k).mp hk).1
    simp [hrow]
  obtain ⟨rs, hrs⟩ := Option.isSome_iff_exists.mp (rowsFrom_isSome hrem)
  obtain ⟨ra, hra⟩ := Option.isSome_iff_exists.mp (rowsFrom_isSome hadd)
  exact ⟨rs, ra, by simp [create_delta_from_pools, hrs, hra],
    rowsFrom_forall₂ hrs, rowsFrom_forall₂ hra⟩

/-- Every element on the right of a `Forall₂` has a related element on the left. -/
theorem forall₂_exists_left {α β : Type} {R : α → β → Prop} {l1 : List α}
    {l2 : List β} (h : List.Forall₂ R l1 l2) : ∀ b ∈ l2, ∃ a ∈ l1, R a b := by
  induction h with
  | nil => intro b hb; simp at hb
  | cons hR _ ih =>
    intro b hb
    rcases List.mem_cons.mp hb with rfl | hb2
    · exact ⟨_, List.mem_cons_self _ _, hR⟩
    · obtain ⟨a, ha, hab⟩ := ih b hb2
      exact ⟨a, List.mem_cons_of_mem _ ha, hab⟩

/-- Rows built from keys a given key avoids: filtering the table for that txid
finds nothing (row builders preserve the key as the row's txid). -/
theorem filter_txid_eq_nil {row : Txid → Option DeltaRow}
    (htx : ∀ k2 r, row k2 = some r → r.txid = k2) {k : Txid}
    {ks : List Txid} {rs : List DeltaRow}
    (h : List.Forall₂ (fun k2 r => row k2 = some r) ks rs) :
    k ∉ ks → rs.filter (fun r => r.txid == k) = [] := by
  induction h with
  | nil => intro _; rfl
  | @cons a b l1 l2 hR hrest ih =>
    intro hk
    have hka : k ≠ a := fun hkk => hk (by rw [hkk]; exact List.mem_cons_self a l1)
    have hbk : ¬(b.txid == k) = true := by
      simp only [beq_iff_eq, htx a b hR]
      exact fun h2 => hka h2.symm
    rw [List.filter_cons_of_neg (p := fun (r : DeltaRow) => r.txid == k) hbk]
    exact ih (fun hm => hk (List.mem_cons_of_mem _ hm))

/-- Rows built from a duplicate-free key list containing `k`: filtering the
table for txid `k` finds exactly the row built from `k`. -/
theorem filter_txid_eq_single {row : Txid → Option DeltaRow}
    (htx : ∀ k2 r, row k2 = some r → r.txid = k2) {k : Txid} {r0 : DeltaRow}
    {ks : List Txid} {rs : List DeltaRow}
    (h : List.Forall₂ (fun k2 r => row k2 = some r) ks rs) :
    ks.Nodup → k ∈ ks → row k = some r0 →
      rs.filter (fun r => r.txid == k) = [r0] := by
  induction h with
  | nil => intro _ hk _; simp at hk
  | @cons a b l1 l2 hR hrest ih =>
    intro hnd hk hr0
    rw [List.nodup_cons] at hnd
    rcases List.mem_cons.mp hk with rfl | hk2
    · have hb : b = r0 := by
        rw [hR] at hr0
        injection hr0
      subst hb
      have hbk : (b.txid == k) = true := by
        rw [htx k b hR]
        exact beq_self_eq_true k
      rw [List.filter_cons_of_pos (p := fun (r : DeltaRow) => r.txid == k) hbk]
      rw [filter_txid_eq_nil htx hrest hnd.1]
    · have hka : k ≠ a := fun hkk => hnd.1 (by rw [← hkk]; exact hk2)
      have hbk : ¬(b.txid == k) = true := by
        simp only [beq_iff_eq, htx a b hR]
        exact fun h2 => hka h2.symm
      rw [List.filter_cons_of_neg (p := fun (r : DeltaRow) => r.txid == k) hbk]
      exact ih hnd.2 hk2 hr0

/-- Pointwise strengthening of a `Forall₂` using membership on the left. -/
theorem forall₂_imp_mem {α β : Type} {R S : α → β → Prop} {l1 : List α} {l2 : List β}
    (h : List.Forall₂ R l1 l2) (himp : ∀ a ∈ l1, ∀ b, R a b → S a b) :
    List.Forall₂ S l1 l2 := by
  induction h with
  | nil => exact List.Forall₂.nil
  | @cons a b t1 t2 hR _ ih =>
    exact List.Forall₂.cons (himp a (List.mem_cons_self a t1) b hR)
      (ih (fun x hx b2 => himp x (List.mem_cons_of_mem _ hx) b2))

/-- Against the empty previous snapshot, nothing is removed and every current
key is added (in iteration order). -/
theorem delta_of_keys_nil_left (s : Mempool) : delta_of_keys [] s = ([], keys s) := by
  unfold delta_of_keys intersectionKeys
  simp [keys, List.filter_eq_self]

/-- Comparing a snapshot with itself removes nothing and adds nothing. -/
theorem delta_of_keys_self (s : Mempool) : delta_of_keys s s = ([], []) := by
  have h1 : (keys s).filter (fun k => !(containsKey s k)) = [] := by
    rw [List.filter_eq_nil_iff]
    intro k hk
    simp [containsKey_eq_false_iff, hk]
  have h2 : (keys s).filter (fun k => !((intersectionKeys s s).contains k)) = [] := by
    rw [List.filter_eq_nil_iff]
    intro k hk
    simp only [List.elem_eq_mem, Bool.not_eq_true', decide_eq_false_iff_not, not_not]
    exact (mem_intersectionKeys_iff s s k).mpr ⟨hk, hk⟩
  unfold delta_of_keys
  rw [h1, h2]

/-- The empty snapshot is well formed. -/
theorem wellFormedPool_nil : WellFormedPool [] := by
  constructor
  · simp [keys]
  · intro p hp; simp at hp

/-! ## Claim theorems -/

/-- C3: the scheduler gate at the top of the recorder loop lets the tick body
run if and only if the current timestamp's seconds-within-minute is one of
0, 15, 30, 45 AND the current whole-second timestamp differs from the one
recorded at the last fired tick; in particular it is false when invoked twice
within the same whole second even at a valid boundary. -/
theorem claim_C3 (now_ts last_ts : Int) :
    should_tick now_ts last_ts = true ↔
      ((secondOfMinute now_ts = 0 ∨ secondOfMinute now_ts = 15 ∨
        secondOfMinute now_ts = 30 ∨ secondOfMinute now_ts = 45) ∧ now_ts ≠ last_ts) := by
  unfold should_tick tickGateSkips secondOfMinute
  simp only [Bool.not_or, Bool.and_eq_true, Bool.not_eq_true', bne_eq_false_iff_eq,
    beq_eq_false_iff_ne, ne_eq]
  omega

/-- C8: delta computation is idempotent on identical inputs — for every
snapshot `s`, `delta(s, s)` is the empty table. -/
theorem claim_C8 (s : Mempool) : create_delta_from_pools s s = some [] := by
  unfold create_delta_from_pools
  rw [delta_of_keys_self]
  rfl

/-- C2: in every loop iteration, if the fetched height differs from
`prev_height` the delta is computed against the empty snapshot and the output
filename suffix is `full`; if it equals `prev_height` the previous snapshot is
kept and the suffix is `delta` — for every current mempool, including one
identical to the previous one. -/
theorem claim_C2 (st : LoopState) (now_ts : Int) (this_height : Nat)
    (this_mempool : Mempool) :
    (this_height ≠ st.prev_height →
      (tick_body st now_ts this_height this_mempool).delta
          = create_delta_from_pools [] this_mempool ∧
        (tick_body st now_ts this_height this_mempool).filename_suffix = "full") ∧
    (this_height = st.prev_height →
      (tick_body st now_ts this_height this_mempool).delta
          = create_delta_from_pools st.prev_mempool this_mempool ∧
        (tick_body st now_ts this_height this_mempool).filename_suffix = "delta") := by
  constructor
  · intro h
    have hb : (st.prev_height != this_height) = true := by
      rw [bne_iff_ne]
      exact fun hh => h hh.symm
    simp [tick_body, hb]
  · intro h
    have hb : (st.prev_height != this_height) = false := by
      rw [bne_eq_false_iff_eq]
      exact h.symm
    simp [tick_body, hb]

/-- Witness for C2: a height rollover from 800000 to 800001 with the current
mempool identical to the previous one still yields the full-mode output
computed against the empty snapshot. -/
theorem claim_C2_witness :
    (tick_body { prev_height := 800000, prev_mempool := exampleCurrPool,
                 prev_timestamp := 100 } 115 800001 exampleCurrPool).delta
        = create_delta_from_pools [] exampleCurrPool ∧
      (tick_body { prev_height := 800000, prev_mempool := exampleCurrPool,
                   prev_timestamp := 100 } 115 800001 exampleCurrPool).filename_suffix
        = "full" :=
  (claim_C2 { prev_height := 800000, prev_mempool := exampleCurrPool,
              prev_timestamp := 100 } 115 800001 exampleCurrPool).1 (by decide)

/-- C10: on the very first executed tick of a run, `prev_height` still holds
the sentinel 0, so any nonzero fetched height is treated as a rollover: the
delta is computed against the empty snapshot and the filename suffix is `full`. -/
theorem claim_C10 (now_ts : Int) (this_height : Nat) (this_mempool : Mempool)
    (h : this_height ≠ 0) :
    (tick_body initialLoopState now_ts this_height this_mempool).delta
        = create_delta_from_pools [] this_mempool ∧
      (tick_body initialLoopState now_ts this_height this_mempool).filename_suffix
        = "full" := by
  have hb : (initialLoopState.prev_height != this_height) = true := by
    rw [bne_iff_ne]
    exact fun hh => h hh.symm
  simp [tick_body, hb]

/-- Witness for C10 at height 800000. -/
theorem claim_C10_witness :
    (800000 : Nat) ≠ 0 ∧
      ((tick_body initialLoopState 115 800000 exampleCurrPool).delta
          = create_delta_from_pools [] exampleCurrPool ∧
        (tick_body initialLoopState 115 800000 exampleCurrPool).filename_suffix
          = "full") :=
  ⟨by decide, claim_C10 115 800000 exampleCurrPool (by decide)⟩

/-- C7 is refuted at this input: `load_height` receives a NON-success HTTP
status whose body nevertheless deserializes as `ChainInfo`; the source only
prints to stderr and returns `Ok(blocks)`, so the transport error neither
aborts the tick nor propagates (first conjunct). The remaining conjuncts
record the failure kinds that do behave as claimed: an unreachable node and a
malformed body propagate from `load_height`, and `load_mempool` aborts on a
non-success status. -/
theorem claim_C7_failing_input :
    load_height (some { status_ok := false,
                        parsed_body := some { blocks := 800000 } }) = Except.ok 800000 ∧
      load_mempool (some { status_ok := false, parsed_body := some exampleCurrPool })
        = Except.error TransportFailure.badStatusAbort ∧
      load_height none = Except.error TransportFailure.connectFailed ∧
      load_height (some { status_ok := false, parsed_body := none })
        = Except.error TransportFailure.decodeFailed :=
  ⟨rfl, rfl, rfl, rfl⟩

/-- C1: for every pair of well-formed snapshots, the delta table has exactly
`|keys(prev) \ keys(curr)| + |keys(curr) \ keys(prev)|` rows and contains no
row whose txid is present in both snapshots — membership changes only, no row
for an id in both regardless of fee/weight changes. -/
theorem claim_C1 (prev curr : Mempool)
    (h1 : WellFormedPool prev) (h2 : WellFormedPool curr) :
    ∃ rows, create_delta_from_pools prev curr = some rows ∧
      rows.length = ((keys prev).toFinset \ (keys curr).toFinset).card
        + ((keys curr).toFinset \ (keys prev).toFinset).card ∧
      ∀ r ∈ rows, ¬(r.txid ∈ keys prev ∧ r.txid ∈ keys curr) := by
  obtain ⟨rs, ra, hcreate, hfr, hfa⟩ := create_delta_spec h1 h2
  refine ⟨rs ++ ra, hcreate, ?_, ?_⟩
  · rw [List.length_append, ← hfr.length_eq, ← hfa.length_eq,
      keys_removed_length h1.1, keys_added_length h2.1]
  · intro r hr
    rcases List.mem_append.mp hr with hr | hr
    · obtain ⟨k, hkmem, hkrow⟩ := forall₂_exists_left hfr r hr
      have hks := (mem_keys_removed_iff prev curr k).mp hkmem
      rw [removedRow_txid hkrow]
      exact fun hc => hks.2 hc.2
    · obtain ⟨k, hkmem, hkrow⟩ := forall₂_exists_left hfa r hr
      have hks := (mem_keys_added_iff prev curr k).mp hkmem
      rw [addedRow_txid hkrow]
      exact fun hc => hks.2 hc.1

/-- Witness for C1 at the spec's end-to-end example pools. -/
theorem claim_C1_witness :
    WellFormedPool examplePrevPool ∧ WellFormedPool exampleCurrPool ∧
      (∃ rows, create_delta_from_pools examplePrevPool exampleCurrPool = some rows ∧
        rows.length =
          ((keys examplePrevPool).toFinset \ (keys exampleCurrPool).toFinset).card
            + ((keys exampleCurrPool).toFinset \ (keys examplePrevPool).toFinset).card ∧
        ∀ r ∈ rows, ¬(r.txid ∈ keys examplePrevPool ∧ r.txid ∈ keys exampleCurrPool)) :=
  ⟨by decide, by decide,
    claim_C1 examplePrevPool exampleCurrPool (by decide) (by decide)⟩

/-- C4: the delta engine is total on well-formed snapshots — it produces a
table without panicking — and every key reported by `delta_of_keys` can be
looked up in the snapshot it should belong to, so the fail-fast
internal-consistency branch is unreachable under well-formedness. -/
theorem claim_C4 (prev curr : Mempool)
    (h1 : WellFormedPool prev) (h2 : WellFormedPool curr) :
    (create_delta_from_pools prev curr).isSome = true ∧
      (∀ k ∈ (delta_of_keys prev curr).1, (lookup prev k).isSome = true) ∧
      (∀ k ∈ (delta_of_keys prev curr).2, (lookup curr k).isSome = true) := by
  obtain ⟨rs, ra, hcreate, _, _⟩ := create_delta_spec h1 h2
  refine ⟨by simp [hcreate], ?_, ?_⟩
  · intro k hk
    exact (lookup_isSome_iff prev k).mpr ((mem_keys_removed_iff prev curr k).mp hk).1
  · intro k hk
    exact (lookup_isSome_iff curr k).mpr ((mem_keys_added_iff prev curr k).mp hk).1

/-- Witness for C4 at the spec's end-to-end example pools. -/
theorem claim_C4_witness :
    WellFormedPool examplePrevPool ∧ WellFormedPool exampleCurrPool ∧
      ((create_delta_from_pools examplePrevPool exampleCurrPool).isSome = true ∧
        (∀ k ∈ (delta_of_keys examplePrevPool exampleCurrPool).1,
          (lookup examplePrevPool k).isSome = true) ∧
        (∀ k ∈ (delta_of_keys examplePrevPool exampleCurrPool).2,
          (lookup exampleCurrPool k).isSome = true)) :=
  ⟨by decide, by decide,
    claim_C4 examplePrevPool exampleCurrPool (by decide) (by decide)⟩

/-- C9: every delta table splits as the removed rows followed by the added
rows — every row in the first part is for a transaction present only in the
previous snapshot and every row in the second part only in the current one. -/
theorem claim_C9 (prev curr : Mempool)
    (h1 : WellFormedPool prev) (h2 : WellFormedPool curr) :
    ∃ rs ra, create_delta_from_pools prev curr = some (rs ++ ra) ∧
      (∀ r ∈ rs, r.txid ∈ keys prev ∧ r.txid ∉ keys curr) ∧
      (∀ r ∈ ra, r.txid ∈ keys curr ∧ r.txid ∉ keys prev) := by
  obtain ⟨rs, ra, hcreate, hfr, hfa⟩ := create_delta_spec h1 h2
  refine ⟨rs, ra, hcreate, ?_, ?_⟩
  · intro r hr
    obtain ⟨k, hkmem, hkrow⟩ := forall₂_exists_left hfr r hr
    rw [removedRow_txid hkrow]
    exact (mem_keys_removed_iff prev curr k).mp hkmem
  · intro r hr
    obtain ⟨k, hkmem, hkrow⟩ := forall₂_exists_left hfa r hr
    rw [addedRow_txid hkrow]
    exact (mem_keys_added_iff prev curr k).mp hkmem

/-- Witness for C9: removed-then-added split on a pair with one removal and
one addition. -/
theorem claim_C9_witness :
    WellFormedPool exampleCurrPool ∧ WellFormedPool examplePrevPool ∧
      (∃ rs ra, create_delta_from_pools exampleCurrPool examplePrevPool
          = some (rs ++ ra) ∧
        (∀ r ∈ rs, r.txid ∈ keys exampleCurrPool ∧ r.txid ∉ keys examplePrevPool) ∧
        (∀ r ∈ ra, r.txid ∈ keys examplePrevPool ∧ r.txid ∉ keys exampleCurrPool)) :=
  ⟨by decide, by decide,
    claim_C9 exampleCurrPool examplePrevPool (by decide) (by decide)⟩

/-- C5: for a key present only in the previous snapshot, the delta table
contains exactly one row for it, whose signed weight is the negation of the
previous entry's weight and whose fee and first-seen values come from the
PREVIOUS snapshot's entry. -/
theorem claim_C5 (prev curr : Mempool) (k : Txid)
    (h1 : WellFormedPool prev) (h2 : WellFormedPool curr)
    (hkp : k ∈ keys prev) (hkc : k ∉ keys curr) :
    ∃ rows e w, create_delta_from_pools prev curr = some rows ∧
      lookup prev k = some e ∧ e.weight = some w ∧
      rows.filter (fun r => r.txid == k) =
        [{ txid := k, weight := -(w : Int), fee_sat := e.fee_base_sat,
           first_seen_at := e.time }] := by
  obtain ⟨rs, ra, hcreate, hfr, hfa⟩ := create_delta_spec h1 h2
  obtain ⟨e, w, he, hw, hrow⟩ := removedRow_eq_some h1 hkp
  have hkrem : k ∈ (delta_of_keys prev curr).1 :=
    (mem_keys_removed_iff prev curr k).mpr ⟨hkp, hkc⟩
  have hfilr := filter_txid_eq_single (fun k2 r h => removedRow_txid h) hfr
    (keys_removed_nodup h1.1) hkrem hrow
  have hfila : ra.filter (fun r => r.txid == k) = [] :=
    filter_txid_eq_nil (fun k2 r h => addedRow_txid h) hfa
      (fun hka => ((mem_keys_added_iff prev curr k).mp hka).2 hkp)
  refine ⟨rs ++ ra, e, w, hcreate, he, hw, ?_⟩
  rw [List.filter_append, hfilr, hfila, List.append_nil]

/-- Witness for C5: with the example pools swapped, key `B` is removed and its
row carries the negated weight and the previous entry's metadata. -/
theorem claim_C5_witness :
    WellFormedPool exampleCurrPool ∧ WellFormedPool examplePrevPool ∧
      "B" ∈ keys exampleCurrPool ∧ "B" ∉ keys examplePrevPool ∧
      (∃ rows e w, create_delta_from_pools exampleCurrPool examplePrevPool
          = some rows ∧
        lookup exampleCurrPool "B" = some e ∧ e.weight = some w ∧
        rows.filter (fun r => r.txid == "B") =
          [{ txid := "B", weight := -(w : Int), fee_sat := e.fee_base_sat,
             first_seen_at := e.time }]) :=
  ⟨by decide, by decide, by decide, by decide,
    claim_C5 exampleCurrPool examplePrevPool "B" (by decide) (by decide)
      (by decide) (by decide)⟩

/-- C6: the delta of any well-formed snapshot with positive entry weights
against the empty snapshot has exactly one row per entry, in snapshot order,
each with positive signed weight equal to the entry's weight and first-seen
time taken from the snapshot. -/
theorem claim_C6 (s : Mempool) (h : WellFormedPool s)
    (hpos : ∀ p ∈ s, 0 < (p.2.weight).getD 0) :
    ∃ rows, create_delta_from_pools [] s = some rows ∧
      rows.length = s.length ∧
      List.Forall₂ (fun (p : Txid × GetMempoolEntryResult) (r : DeltaRow) =>
        r.txid = p.1 ∧ (∃ w, p.2.weight = some w ∧ r.weight = (w : Int)) ∧
        0 < r.weight ∧ r.fee_sat = p.2.fee_base_sat ∧
        r.first_seen_at = p.2.time) s rows := by
  obtain ⟨rs, ra, hcreate, hfr, hfa⟩ := create_delta_spec wellFormedPool_nil h
  rw [delta_of_keys_nil_left] at hfr hfa
  have hrs : rs = [] := (List.forall₂_nil_left_iff.mp hfr).symm ▸ rfl
  subst hrs
  rw [List.nil_append] at hcreate
  refine ⟨ra, hcreate, ?_, ?_⟩
  · rw [← hfa.length_eq]
    simp [keys]
  · unfold keys at hfa
    rw [List.forall₂_map_left_iff] at hfa
    apply forall₂_imp_mem hfa
    intro p hp r hrow
    have hl : lookup s p.1 = some p.2 := lookup_eq_of_mem h.1 hp
    obtain ⟨w, hw⟩ := Option.isSome_iff_exists.mp (h.2 p hp)
    simp only [addedRow, hl, hw] at hrow
    injection hrow with hrow
    subst hrow
    have hwpos : 0 < w := by
      have := hpos p hp
      rw [hw] at this
      simpa using this
    have hwz : (0 : Int) < (w : Int) := by exact_mod_cast hwpos
    exact ⟨rfl, ⟨w, hw, rfl⟩, hwz, rfl, rfl⟩

/-- Witness for C6 at the spec's two-entry current pool. -/
theorem claim_C6_witness :
    WellFormedPool exampleCurrPool ∧
      (∀ p ∈ exampleCurrPool, 0 < (p.2.weight).getD 0) ∧
      (∃ rows, create_delta_from_pools [] exampleCurrPool = some rows ∧
        rows.length = exampleCurrPool.length ∧
        List.Forall₂ (fun (p : Txid × GetMempoolEntryResult) (r : DeltaRow) =>
          r.txid = p.1 ∧ (∃ w, p.2.weight = some w ∧ r.weight = (w : Int)) ∧
          0 < r.weight ∧ r.fee_sat = p.2.fee_base_sat ∧
          r.first_seen_at = p.2.time) exampleCurrPool rows) :=
  ⟨by decide, by decide, claim_C6 exampleCurrPool (by decide) (by decide)⟩

end WhatTheFee
